import Mathlib

/-!
Formal model of the speech layer of the EasyInterview repository.

The development shallowly embeds two pieces of the source:

* the transcript-stitching helper `stitchText` (src/unnamed/part_002,
  lines 13-52), translated operation by operation (trim, toLowerCase,
  startsWith, split on whitespace, join, punctuation removal, slice);
* the capture/playback hook `useSpeech` (src/hooks/useSpeech.ts): the
  recognition state held in its refs, its `onresult` / `onend` /
  `onerror` callbacks, the `startListening` / `stopListening` /
  `resetTranscript` operations, and the speech-synthesis side
  (`speak` / `cancelSpeech`) as a small event-driven state machine.

JavaScript strings are modelled as Lean `String`; every string
operation the source uses is re-implemented by structural recursion on
the underlying character list so that all definitions are executable
and kernel-reducible.
-/

/-- Character class used by the embedding for the whitespace splits and
trims the source performs (space, tab, CR, LF cover every input the
claims mention). -/
def wsChar (c : Char) : Bool :=
  c = ' ' ∨ c = '\t' ∨ c = '\r' ∨ c = '\n'

/-- Embedding of JavaScript `String.prototype.trim`: drop leading and
trailing whitespace. -/
def jsTrim (s : String) : String :=
  ⟨((s.data.dropWhile wsChar).reverse.dropWhile wsChar).reverse⟩

/-- Embedding of JavaScript `String.prototype.toLowerCase` (the source
only feeds it ASCII transcript text). -/
def lowerStr (s : String) : String :=
  ⟨s.data.map Char.toLower⟩

/-- Embedding of JavaScript `s.startsWith(p)`: the first `p.length`
characters of `s` are exactly `p`. -/
def jsStartsWith (s p : String) : Bool :=
  s.data.take p.data.length == p.data

/-- Worker for `wordsOf`: split a character list at whitespace runs,
accumulating the current (reversed) word. -/
def wordsAux : List Char → List Char → List String
  | [], acc => if acc.isEmpty then [] else [⟨acc.reverse⟩]
  | c :: cs, acc =>
      if wsChar c then
        if acc.isEmpty then wordsAux cs [] else ⟨acc.reverse⟩ :: wordsAux cs []
      else
        wordsAux cs (c :: acc)

/-- Embedding of JavaScript `s.split(/\s+/)` as the source applies it
(always to an already-trimmed string, so no empty words arise). -/
def wordsOf (s : String) : List String :=
  wordsAux s.data []

/-- Embedding of JavaScript `words.join(' ')`. -/
def joinSp : List String → String
  | [] => ""
  | w :: ws => ws.foldl (fun a b => a ++ " " ++ b) w

/-- Embedding of JavaScript `s.replace(/[.,?!]/g, '')`: delete every
period, comma, question mark and exclamation mark. -/
def stripPunct (s : String) : String :=
  ⟨s.data.filter (fun c => ¬(c = '.' ∨ c = ',' ∨ c = '?' ∨ c = '!'))⟩

/-- Substring test used to state the transcript-containment claims:
some suffix of `s` starts with `pat`. -/
def strContains (s pat : String) : Bool :=
  (List.range (s.data.length + 1)).any
    (fun k => (s.data.drop k).take pat.data.length == pat.data)

/-- One overlap comparison of the stitching loop (src/unnamed/part_002,
lines 37-44): the last `i` words of the existing text and the first `i`
words of the incoming text, joined, lower-cased and with punctuation
normalized out, are equal. -/
def overlapMatchAt (ews iws : List String) (i : Nat) : Bool :=
  stripPunct (lowerStr (joinSp (ews.drop (ews.length - i)))) ==
    stripPunct (lowerStr (joinSp (iws.take i)))

/-- The `for (let i = maxOverlap; i > 0; i--)` loop of `stitchText`
(src/unnamed/part_002, lines 36-48): try overlap widths from `n` down
to `1`; on the first (widest) match return the existing text plus the
non-overlapping remainder of the incoming words; if no width matches,
fall through to the plain append of line 51. -/
def stitchLoop (s e : String) (ews iws : List String) : Nat → String
  | 0 => s ++ " " ++ e
  | i + 1 =>
      if overlapMatchAt ews iws (i + 1) then
        s ++ " " ++ joinSp (iws.drop (i + 1))
      else
        stitchLoop s e ews iws i

/-- Embedding of `stitchText` (src/unnamed/part_002, lines 13-52):
trim both sides, return the other side when one is empty, replace when
the incoming text contains the existing text as a case-insensitive
prefix, otherwise run the overlap loop bounded by
`min(existingWords.length, incomingWords.length, 5)`. -/
def stitchText (existing incoming : String) : String :=
  let s := jsTrim existing
  let e := jsTrim incoming
  if s = "" then e
  else if e = "" then s
  else if jsStartsWith (lowerStr e) (lowerStr s) = true then e
  else
    stitchLoop s e (wordsOf s) (wordsOf e)
      (min (min (wordsOf s).length (wordsOf e).length) 5)

/-- Spec-side rendering of the stitching rule's overlap search, written
from the specification's words: among overlap widths `1 ≤ i ≤
min(existing words, incoming words, 5)`, take the longest width whose
case-insensitive punctuation-normalized comparison matches and append
only the remainder of the incoming words; when no width matches, plain
append. Stated via `Nat.findGreatest` so that "longest shared span
wins" is explicit. -/
def stitchSpecLongest (s e : String) : String :=
  let iws := wordsOf e
  let m := min (min (wordsOf s).length iws.length) 5
  let g := Nat.findGreatest (fun i => overlapMatchAt (wordsOf s) iws i = true) m
  if g = 0 then s ++ " " ++ e else s ++ " " ++ joinSp (iws.drop g)

/-- The countdown loop of the source returns exactly the longest
matching overlap width that `Nat.findGreatest` selects. -/
theorem stitchLoop_eq_findGreatest (s e : String) (ews iws : List String) :
    ∀ n, stitchLoop s e ews iws n =
      (if Nat.findGreatest (fun i => overlapMatchAt ews iws i = true) n = 0 then
        s ++ " " ++ e
      else
        s ++ " " ++
          joinSp (iws.drop (Nat.findGreatest
            (fun i => overlapMatchAt ews iws i = true) n))) := by
  intro n
  induction n with
  | zero => simp [stitchLoop, Nat.findGreatest_zero]
  | succ n ih =>
      rw [stitchLoop, Nat.findGreatest_succ]
      by_cases h : overlapMatchAt ews iws (n + 1) = true
      · simp [h]
      · simp only [h, if_false, eq_self_iff_true]
        simpa [h] using ih

/-- One entry of the recognition engine's result list as the source
reads it: the transcript of alternative `[0]` and the `isFinal` flag
(src/hooks/useSpeech.ts, lines 82-92). -/
structure SpeechEvResult where
  transcript : String
  isFinal : Bool
deriving DecidableEq

/-- One `onresult` event: the engine's `resultIndex` and the full
re-delivered result list. -/
structure ResultEvent where
  resultIndex : Nat
  results : List SpeechEvResult
deriving DecidableEq

/-- The slice of the result list the `onresult` loop actually visits:
`for (let i = event.resultIndex; i < event.results.length; ++i)`. -/
def windowOf (ev : ResultEvent) : List SpeechEvResult :=
  ev.results.drop ev.resultIndex

/-- State of the Capture Controller: the reactive `isListening` and
`transcript` values plus the hook's refs `finalTranscriptRef`
(`final`), `interimTranscriptRef` (`interim`),
`isManuallyStoppedRef` (`manualStop`) and whether `recognitionRef`
holds an engine (`hasRec`). -/
structure CapState where
  isListening : Bool
  transcript : String
  final : String
  interim : String
  manualStop : Bool
  hasRec : Bool
deriving DecidableEq

/-- Initial hook state: not listening, empty buffers, manual-stop
intent false, engine handle installed. -/
def capInit : CapState :=
  { isListening := false, transcript := "", final := "", interim := "",
    manualStop := false, hasRec := true }

/-- One iteration of the `onresult` loop (src/hooks/useSpeech.ts,
lines 82-93) over the accumulator
`(finalTranscriptRef, interimTranscriptRef, interim-local)`: a final
result is appended to the committed buffer (with a separating space
when the buffer is non-empty) and clears the interim ref; an interim
result is concatenated onto the local interim accumulator. -/
def stepRes (acc : String × String × String) (r : SpeechEvResult) :
    String × String × String :=
  if r.isFinal then
    (acc.1 ++ (if 0 < acc.1.length then " " else "") ++ jsTrim r.transcript,
      "", acc.2.2)
  else
    (acc.1, acc.2.1, acc.2.2 ++ r.transcript)

/-- The `onresult` handler (src/hooks/useSpeech.ts, lines 76-102): run
the loop over the window, store the local interim into the interim ref
when non-empty (JavaScript truthiness of `if (interim)`), and set the
displayed transcript to
`finalTranscriptRef + (interim ? ' ' + interim : '')`. -/
def onresult (ev : ResultEvent) (s : CapState) : CapState :=
  let t := (windowOf ev).foldl stepRes (s.final, s.interim, "")
  { s with
      final := t.1,
      interim := if t.2.2 ≠ "" then t.2.2 else t.2.1,
      transcript := t.1 ++ (if t.2.2 ≠ "" then " " ++ t.2.2 else "") }

/-- The interim text an event delivers: concatenation of the non-final
transcripts in the visited window. -/
def interimConcat (l : List SpeechEvResult) : String :=
  l.foldl (fun a r => if r.isFinal then a else a ++ r.transcript) ""

/-- The rescue step of `onend` (src/hooks/useSpeech.ts, lines 53-58):
when the trimmed interim ref is non-empty, append it to the committed
buffer with a separating space when that buffer is non-empty, clear the
interim ref, and publish the committed buffer as the transcript. -/
def rescueInterim (s : CapState) : CapState :=
  if jsTrim s.interim ≠ "" then
    { s with
        final := s.final ++ (if 0 < s.final.length then " " else "") ++
          jsTrim s.interim,
        interim := "",
        transcript := s.final ++ (if 0 < s.final.length then " " else "") ++
          jsTrim s.interim }
  else s

/-- Outcome of one `onend` callback: the new state, how many immediate
`recognition.start()` calls were made, and whether a delayed retry was
scheduled because that call threw. -/
structure EndResult where
  state : CapState
  startAttempts : Nat
  retryScheduled : Bool
deriving DecidableEq

/-- The `onend` handler (src/hooks/useSpeech.ts, lines 46-74),
parameterized by whether the immediate `recognition.start()` call
throws: with an engine handle and no manual-stop intent it rescues the
interim text and attempts one restart, scheduling the single 100 ms
retry exactly when the attempt throws; otherwise it only reports the
capture inactive. -/
def onendE (startThrows : Bool) (s : CapState) : EndResult :=
  if s.hasRec = true ∧ s.manualStop = false then
    { state := rescueInterim s, startAttempts := 1,
      retryScheduled := startThrows }
  else
    { state := { s with isListening := false }, startAttempts := 0,
      retryScheduled := false }

/-- Number of `recognition.start()` calls the scheduled retry timer
makes when it fires (src/hooks/useSpeech.ts, lines 64-68): one, unless
manual stop has been requested or the engine handle is gone. -/
def retryStartAttempts (s : CapState) : Nat :=
  if s.manualStop = false ∧ s.hasRec = true then 1 else 0

/-- The `onerror` handler (src/hooks/useSpeech.ts, lines 104-118):
transient codes are ignored, permission codes force the UI inactive and
set manual-stop intent, every other code is logged (the returned flag)
and leaves the state alone. -/
def onerrorFn (code : String) (s : CapState) : CapState × Bool :=
  if code = "no-speech" ∨ code = "network" ∨ code = "aborted" then
    (s, false)
  else if code = "not-allowed" ∨ code = "service-not-allowed" then
    ({ s with isListening := false, manualStop := true }, false)
  else
    (s, true)

/-- `startListening` (src/hooks/useSpeech.ts, lines 170-191), success
path: clear intent and both buffers, publish the empty transcript, mark
the UI listening, start the engine. Without an engine handle it does
nothing. -/
def startListening (s : CapState) : CapState :=
  if s.hasRec = true then
    { s with
        manualStop := false
        final := ""
        interim := ""
        transcript := ""
        isListening := true }
  else s

/-- `stopListening` (src/hooks/useSpeech.ts, lines 193-199): record
manual-stop intent, ask the engine to stop, report the UI inactive.
The transcript and both text buffers are untouched. -/
def stopListening (s : CapState) : CapState :=
  if s.hasRec = true then
    { s with manualStop := true, isListening := false }
  else s

/-- `resetTranscript` (src/hooks/useSpeech.ts, lines 201-205): clear
both buffers and the displayed transcript, touching nothing else. -/
def resetTranscript (s : CapState) : CapState :=
  { s with final := "", interim := "", transcript := "" }

/-- Events the Capture Controller reacts to: the exposed operations
(including the `setTranscript` manual override the hook returns) and
the engine callbacks. -/
inductive CapEv where
  | startL : CapEv
  | stopL : CapEv
  | reset : CapEv
  | setT : String → CapEv
  | result : ResultEvent → CapEv
  | ended : Bool → CapEv
  | err : String → CapEv
deriving DecidableEq

/-- Single transition of the capture state machine. -/
def capStep : CapEv → CapState → CapState
  | .startL, s => startListening s
  | .stopL, s => stopListening s
  | .reset, s => resetTranscript s
  | .setT t, s => { s with transcript := t }
  | .result ev, s => onresult ev s
  | .ended b, s => (onendE b s).state
  | .err c, s => (onerrorFn c s).1

/-- Run a list of capture events from a state. -/
def capRun (evs : List CapEv) (s : CapState) : CapState :=
  evs.foldl (fun a e => capStep e a) s

/-- Sanitization `speak` applies (src/hooks/useSpeech.ts, line 225):
delete every `*`, `#`, `_` and backtick (character 96), then trim. -/
def sanitizeTTS (text : String) : String :=
  jsTrim ⟨text.data.filter
    (fun c => ¬(c = '*' ∨ c = '#' ∨ c = '_' ∨ c = Char.ofNat 96))⟩

/-- Observable playback happenings, recorded in delivery order: a
pending dispatch timer cleared before firing, an utterance removed by
`synth.cancel()`, an utterance reaching its `onstart`, an utterance
reaching its `onend`. Utterances are identified by their full text. -/
inductive PBLog where
  | discardedTimer : String → PBLog
  | canceledUt : String → PBLog
  | started : String → PBLog
  | endedUt : String → PBLog
deriving DecidableEq

/-- State of the Playback Controller: the pending dispatch timers of
`speakTimeoutRef` (the code holds at most one; the model keeps a list
so that "at most one" is a theorem, not an assumption), the utterances
handed to the synthesizer but not yet started, the currently speaking
utterance, the reactive `isSpeaking` flag, and the log. -/
structure PBState where
  pending : List String
  queue : List String
  speaking : Option String
  isSpeaking : Bool
  log : List PBLog
deriving DecidableEq

/-- Initial playback state. -/
def pbInit : PBState :=
  { pending := [], queue := [], speaking := none, isSpeaking := false,
    log := [] }

/-- Log entries produced by one `synth.cancel()` call: every queued
utterance and the speaking one (if any) are canceled. -/
def cancelCurrentLogs (s : PBState) : List PBLog :=
  s.queue.map PBLog.canceledUt ++
    (match s.speaking with
      | some u => [PBLog.canceledUt u]
      | none => [])

/-- The `speak` operation (src/hooks/useSpeech.ts, lines 218-260):
clear the pending dispatch timer, cancel everything in the
synthesizer, force `isSpeaking` false, sanitize the text; when the
sanitized text is empty stop there, otherwise schedule a single
dispatch of the utterance `". " ++ sanitized` (the leading-silence
buffer of line 228) after the fixed 100 ms delay. -/
def pbSpeak (text : String) (s : PBState) : PBState :=
  let clean := sanitizeTTS text
  { pending := if clean = "" then [] else [". " ++ clean],
    queue := [], speaking := none, isSpeaking := false,
    log := s.log ++ s.pending.map PBLog.discardedTimer ++
      cancelCurrentLogs s }

/-- The `cancelSpeech` operation (src/hooks/useSpeech.ts, lines
207-216): clear the pending dispatch timer, cancel everything in the
synthesizer, force `isSpeaking` false. -/
def pbCancelSpeech (s : PBState) : PBState :=
  { pending := [], queue := [], speaking := none, isSpeaking := false,
    log := s.log ++ s.pending.map PBLog.discardedTimer ++
      cancelCurrentLogs s }

/-- A scheduled dispatch timer fires: `synth.speak(utterance)` hands
the utterance to the synthesizer queue. -/
def pbTimerFire (s : PBState) : PBState :=
  match s.pending with
  | [] => s
  | u :: rest => { s with pending := rest, queue := s.queue ++ [u] }

/-- The synthesizer starts the next queued utterance when idle; its
`onstart` sets `isSpeaking` true. -/
def pbEngineStart (s : PBState) : PBState :=
  match s.speaking, s.queue with
  | none, u :: rest =>
      { s with
          speaking := some u
          queue := rest
          isSpeaking := true
          log := s.log ++ [PBLog.started u] }
  | _, _ => s

/-- The speaking utterance finishes; its `onend` clears `isSpeaking`
and the current-utterance ref. -/
def pbEngineEnd (s : PBState) : PBState :=
  match s.speaking with
  | some u =>
      { s with
          speaking := none
          isSpeaking := false
          log := s.log ++ [PBLog.endedUt u] }
  | none => s

/-- Events the Playback Controller reacts to. -/
inductive PBEv where
  | speakE : String → PBEv
  | fire : PBEv
  | engStart : PBEv
  | engEnd : PBEv
  | cancelE : PBEv
deriving DecidableEq

/-- Single transition of the playback state machine. -/
def pbStep : PBEv → PBState → PBState
  | .speakE t, s => pbSpeak t s
  | .fire, s => pbTimerFire s
  | .engStart, s => pbEngineStart s
  | .engEnd, s => pbEngineEnd s
  | .cancelE, s => pbCancelSpeech s

/-- Run a list of playback events from a state. -/
def pbRun (evs : List PBEv) (s : PBState) : PBState :=
  evs.foldl (fun a e => pbStep e a) s

/-- Number of utterances anywhere in the playback pipeline: pending
dispatch timers, synthesizer queue, and the speaking slot. -/
def pipelineCount (s : PBState) : Nat :=
  s.pending.length + s.queue.length + (if s.speaking.isSome then 1 else 0)

/-- The interim-local accumulator of the `onresult` loop ignores the
committed and interim-ref components: it is the fold of the non-final
transcripts alone. -/
theorem foldRes_loc (l : List SpeechEvResult) :
    ∀ f r loc, (l.foldl stepRes (f, r, loc)).2.2 =
      l.foldl (fun a x => if x.isFinal then a else a ++ x.transcript) loc := by
  induction l with
  | nil => intro f r loc; rfl
  | cons x xs ih =>
      intro f r loc
      by_cases hx : x.isFinal <;>
        simp [List.foldl_cons, stepRes, hx, ih]

/-- Specialization of `foldRes_loc` to the empty starting accumulator,
phrased with `interimConcat`. -/
theorem foldRes_interimConcat (l : List SpeechEvResult) (f r : String) :
    (l.foldl stepRes (f, r, "")).2.2 = interimConcat l :=
  foldRes_loc l f r ""

/-- After the `onresult` loop the interim ref is empty exactly when
some visited result was final; otherwise the ref keeps its previous
value. -/
theorem foldRes_ref (l : List SpeechEvResult) :
    ∀ f r loc, (l.foldl stepRes (f, r, loc)).2.1 =
      if l.any (fun x => x.isFinal) then "" else r := by
  induction l with
  | nil => intro f r loc; rfl
  | cons x xs ih =>
      intro f r loc
      by_cases hx : x.isFinal <;>
        simp [List.foldl_cons, stepRes, hx, ih]

/-- A window with no final result leaves the committed buffer alone. -/
theorem foldRes_fin_interimOnly (l : List SpeechEvResult)
    (h : ∀ x ∈ l, x.isFinal = false) :
    ∀ f r loc, (l.foldl stepRes (f, r, loc)).1 = f := by
  induction l with
  | nil => intro f r loc; rfl
  | cons x xs ih =>
      intro f r loc
      have hx : x.isFinal = false := h x (List.mem_cons_self x xs)
      simp only [List.foldl_cons, stepRes, hx, if_false]
      exact ih (fun y hy => h y (List.mem_cons_of_mem x hy)) f r _

/-- Projection lemma: the committed buffer after `onresult`. -/
theorem onresult_final (ev : ResultEvent) (s : CapState) :
    (onresult ev s).final =
      ((windowOf ev).foldl stepRes (s.final, s.interim, "")).1 := rfl

/-- Projection lemma: the interim ref after `onresult`. -/
theorem onresult_interim (ev : ResultEvent) (s : CapState) :
    (onresult ev s).interim =
      (if ((windowOf ev).foldl stepRes (s.final, s.interim, "")).2.2 ≠ "" then
        ((windowOf ev).foldl stepRes (s.final, s.interim, "")).2.2
      else
        ((windowOf ev).foldl stepRes (s.final, s.interim, "")).2.1) := rfl

/-- Projection lemma: the displayed transcript after `onresult`. -/
theorem onresult_transcript (ev : ResultEvent) (s : CapState) :
    (onresult ev s).transcript =
      ((windowOf ev).foldl stepRes (s.final, s.interim, "")).1 ++
        (if ((windowOf ev).foldl stepRes (s.final, s.interim, "")).2.2 ≠ "" then
          " " ++ ((windowOf ev).foldl stepRes (s.final, s.interim, "")).2.2
        else "") := rfl

/-- `stopListening` never changes the transcript or the text buffers. -/
theorem stopListening_keeps_text (s : CapState) :
    (stopListening s).transcript = s.transcript ∧
    (stopListening s).final = s.final ∧
    (stopListening s).interim = s.interim := by
  unfold stopListening
  split <;> simp

/-- C1: the stitching rule. For every pair of texts that are non-empty
after trimming, when the incoming text contains the existing text as a
case-insensitive prefix, `stitchText` returns the incoming text alone
(replace, not concatenate); otherwise it returns the result of the
overlap search that tries widths from the bounded maximum
`min(existing words, incoming words, 5)` down to 1, case-insensitively
and with the punctuation `.,?!` normalized out, appending on a match
only the non-overlapping remainder of the incoming words (the longest
matching width wins, stated via `Nat.findGreatest` in
`stitchSpecLongest`). In particular stitching "Thank" with "Thank you"
yields "Thank you", and "My name is" with "Krish" yields
"My name is Krish". -/
theorem stitchText_rule_c1 :
    (∀ existing incoming : String,
      jsTrim existing ≠ "" → jsTrim incoming ≠ "" →
      (jsStartsWith (lowerStr (jsTrim incoming)) (lowerStr (jsTrim existing)) =
          true →
        stitchText existing incoming = jsTrim incoming) ∧
      (jsStartsWith (lowerStr (jsTrim incoming)) (lowerStr (jsTrim existing)) =
          false →
        stitchText existing incoming =
          stitchSpecLongest (jsTrim existing) (jsTrim incoming))) ∧
    stitchText "Thank" "Thank you" = "Thank you" ∧
    stitchText "My name is" "Krish" = "My name is Krish" := by
  refine ⟨?_, by decide, by decide⟩
  intro ex inc h1 h2
  constructor
  · intro hpre
    simp only [stitchText]
    rw [if_neg h1, if_neg h2, if_pos hpre]
  · intro hnpre
    simp only [stitchText, stitchSpecLongest]
    rw [if_neg h1, if_neg h2, if_neg (by simp [hnpre])]
    exact stitchLoop_eq_findGreatest _ _ _ _ _

/-- Witness for C1: the prefix-containment branch evaluated at the
spec's own example. -/
theorem stitchText_rule_c1_witness :
    stitchText "Thank" "Thank you" = jsTrim "Thank you" :=
  ((stitchText_rule_c1.1 "Thank" "Thank you" (by decide) (by decide)).1
    (by decide))

/-- C10: algebraic identities of `stitchText`. For every string `t`,
stitching from an empty committed text returns the trimmed incoming
text, stitching an empty incoming text returns the trimmed existing
text, and stitching a text with an identical copy of itself collapses
to a single trimmed copy, so exact redelivery of the same span never
duplicates it. -/
theorem stitchText_identity_laws_c10 :
    ∀ t : String,
      stitchText "" t = jsTrim t ∧
      stitchText t "" = jsTrim t ∧
      stitchText t t = jsTrim t := by
  intro t
  refine ⟨?_, ?_, ?_⟩
  · simp [stitchText, show jsTrim "" = "" from rfl]
  · by_cases ht : jsTrim t = ""
    · simp [stitchText, ht, show jsTrim "" = "" from rfl]
    · simp [stitchText, ht, show jsTrim "" = "" from rfl]
  · by_cases ht : jsTrim t = ""
    · simp [stitchText, ht]
    · have hsw : jsStartsWith (lowerStr (jsTrim t)) (lowerStr (jsTrim t)) =
          true := by
        simp [jsStartsWith, List.take_length]
      simp [stitchText, ht, hsw]

/-- C2 counterexample: a reachable state whose committed text is
"hello" and whose pending interim ref is "world" while the displayed
transcript is only "hello" (the second result event carries one empty
interim result, so the display drops the stored interim); calling
`stopListening` there yields a transcript that does not contain
"hello world". -/
theorem stop_rescue_c2_counterexample :
    (capRun [CapEv.result ⟨0, [⟨"hello", true⟩, ⟨"world", false⟩]⟩,
        CapEv.result ⟨0, [⟨"", false⟩]⟩] capInit).final = "hello" ∧
    (capRun [CapEv.result ⟨0, [⟨"hello", true⟩, ⟨"world", false⟩]⟩,
        CapEv.result ⟨0, [⟨"", false⟩]⟩] capInit).interim = "world" ∧
    (stopListening (capRun
        [CapEv.result ⟨0, [⟨"hello", true⟩, ⟨"world", false⟩]⟩,
          CapEv.result ⟨0, [⟨"", false⟩]⟩] capInit)).transcript = "hello" ∧
    strContains (stopListening (capRun
        [CapEv.result ⟨0, [⟨"hello", true⟩, ⟨"world", false⟩]⟩,
          CapEv.result ⟨0, [⟨"", false⟩]⟩] capInit)).transcript
      "hello world" = false := by
  decide

/-- C2 (amended): `stopListening` leaves the transcript and both text
buffers exactly as they were — the pending interim is not appended to
the committed buffer on a manual stop — and whenever the most recent
result event delivered interim text "world" and left committed text
"hello", the displayed transcript already reads "hello world", so the
transcript after `stopListening` still contains "hello world". -/
theorem stop_keeps_rescued_display_c2 :
    (∀ s : CapState,
      (stopListening s).transcript = s.transcript ∧
      (stopListening s).final = s.final ∧
      (stopListening s).interim = s.interim) ∧
    (∀ (s : CapState) (ev : ResultEvent),
      interimConcat (windowOf ev) = "world" →
      (onresult ev s).final = "hello" →
      (stopListening (onresult ev s)).transcript = "hello world" ∧
      strContains (stopListening (onresult ev s)).transcript
        "hello world" = true) := by
  refine ⟨stopListening_keeps_text, ?_⟩
  intro s ev hw hf
  have hloc : ((windowOf ev).foldl stepRes (s.final, s.interim, "")).2.2 =
      "world" := by
    rw [foldRes_loc]
    exact hw
  have hfin : ((windowOf ev).foldl stepRes (s.final, s.interim, "")).1 =
      "hello" := hf
  have ht : (stopListening (onresult ev s)).transcript = "hello world" := by
    rw [(stopListening_keeps_text (onresult ev s)).1, onresult_transcript,
      hloc, hfin]
    decide
  exact ⟨ht, by rw [ht]; decide⟩

/-- Witness for C2's amended theorem at a concrete event. -/
theorem stop_keeps_rescued_display_c2_witness :
    (stopListening (onresult ⟨0, [⟨"hello", true⟩, ⟨"world", false⟩]⟩
        capInit)).transcript = "hello world" ∧
    strContains (stopListening (onresult
        ⟨0, [⟨"hello", true⟩, ⟨"world", false⟩]⟩ capInit)).transcript
      "hello world" = true :=
  stop_keeps_rescued_display_c2.2 capInit
    ⟨0, [⟨"hello", true⟩, ⟨"world", false⟩]⟩ (by decide) (by decide)

/-- C3 counterexample: the `onresult` handler keeps no caller-side
watermark — replaying the same event (same result list, same
`resultIndex`) containing a final fragment re-appends that fragment to
the committed transcript. -/
theorem redelivery_c3_counterexample :
    (onresult ⟨0, [⟨"hello", true⟩]⟩ capInit).final = "hello" ∧
    (onresult ⟨0, [⟨"hello", true⟩]⟩
      (onresult ⟨0, [⟨"hello", true⟩]⟩ capInit)).final = "hello hello" ∧
    ¬((onresult ⟨0, [⟨"hello", true⟩]⟩
        (onresult ⟨0, [⟨"hello", true⟩]⟩ capInit)).final =
      (onresult ⟨0, [⟨"hello", true⟩]⟩ capInit).final) := by
  decide

/-- C3 (amended): re-delivery is idempotent only for events whose
visited window carries no finalized fragment — processing such an event
a second time changes neither the committed transcript nor the interim
ref nor the display; an event that re-lists a finalized fragment
without index advancement is re-appended (see the counterexample). -/
theorem redelivery_interim_only_idempotent_c3 :
    ∀ (s : CapState) (ev : ResultEvent),
      (∀ x ∈ windowOf ev, x.isFinal = false) →
      (onresult ev (onresult ev s)).final = (onresult ev s).final ∧
      (onresult ev (onresult ev s)).interim = (onresult ev s).interim ∧
      (onresult ev (onresult ev s)).transcript =
        (onresult ev s).transcript := by
  intro s ev h
  have hany : (windowOf ev).any (fun x => x.isFinal) = false := by
    rw [List.any_eq_false]
    intro x hx
    simp [h x hx]
  have hfin1 : (onresult ev s).final = s.final := by
    rw [onresult_final, foldRes_fin_interimOnly _ h]
  have hfin2 : (onresult ev (onresult ev s)).final = (onresult ev s).final := by
    rw [onresult_final, foldRes_fin_interimOnly _ h]
  have hI : ∀ u : CapState, (onresult ev u).interim =
      (if interimConcat (windowOf ev) ≠ "" then interimConcat (windowOf ev)
       else u.interim) := by
    intro u
    rw [onresult_interim, foldRes_loc, foldRes_ref, hany]
    simp [interimConcat]
  refine ⟨hfin2, ?_, ?_⟩
  · rw [hI (onresult ev s)]
    by_cases hic : interimConcat (windowOf ev) = ""
    · simp [hic]
    · simp [hic, hI s]
  · rw [onresult_transcript, onresult_transcript]
    simp only [foldRes_loc, foldRes_fin_interimOnly _ h, hfin1]

/-- Witness for C3's amended theorem at a concrete interim-only
event. -/
theorem redelivery_interim_only_idempotent_c3_witness :
    (onresult ⟨0, [⟨"hi", false⟩]⟩
      (onresult ⟨0, [⟨"hi", false⟩]⟩ capInit)).final =
      (onresult ⟨0, [⟨"hi", false⟩]⟩ capInit).final ∧
    (onresult ⟨0, [⟨"hi", false⟩]⟩
      (onresult ⟨0, [⟨"hi", false⟩]⟩ capInit)).interim =
      (onresult ⟨0, [⟨"hi", false⟩]⟩ capInit).interim ∧
    (onresult ⟨0, [⟨"hi", false⟩]⟩
      (onresult ⟨0, [⟨"hi", false⟩]⟩ capInit)).transcript =
      (onresult ⟨0, [⟨"hi", false⟩]⟩ capInit).transcript :=
  redelivery_interim_only_idempotent_c3 capInit ⟨0, [⟨"hi", false⟩]⟩
    (by decide)

/-- C4: restart transparency. With an engine handle present and
manual-stop intent false, the `onend` handler folds the interim text
present at that moment into the committed text exactly once (one copy
appended when its trim is non-empty, and a second `onend` appends
nothing further), asks the engine to restart exactly once, and — when
that re-activation throws — schedules exactly one retry after the
fixed delay, which makes exactly one further start attempt. -/
theorem restart_transparency_c4 :
    ∀ (s : CapState) (b : Bool),
      s.hasRec = true → s.manualStop = false →
      (onendE b s).startAttempts = 1 ∧
      (onendE b s).retryScheduled = b ∧
      retryStartAttempts (onendE b s).state = 1 ∧
      (onendE b s).state.final =
        (if jsTrim s.interim ≠ "" then
          s.final ++ (if 0 < s.final.length then " " else "") ++
            jsTrim s.interim
        else s.final) ∧
      (jsTrim s.interim ≠ "" → (onendE b s).state.interim = "") ∧
      (∀ b' : Bool,
        (onendE b' (onendE b s).state).state.final =
          (onendE b s).state.final) := by
  intro s b h1 h2
  have hc : s.hasRec = true ∧ s.manualStop = false := ⟨h1, h2⟩
  have hkeep : (rescueInterim s).manualStop = false ∧
      (rescueInterim s).hasRec = true := by
    unfold rescueInterim
    split <;> simp [h1, h2]
  refine ⟨?_, ?_, ?_, ?_, ?_, ?_⟩
  · simp [onendE, hc]
  · simp [onendE, hc]
  · simp only [onendE, if_pos hc]
    simp [retryStartAttempts, hkeep.1, hkeep.2]
  · simp only [onendE, if_pos hc]
    unfold rescueInterim
    by_cases hi : jsTrim s.interim = "" <;> simp [hi]
  · intro hi
    simp [onendE, hc, rescueInterim, hi]
  · intro b'
    have hsecond : ∀ (c : Bool) (u : CapState), u.hasRec = true →
        u.manualStop = false → (onendE c u).state = rescueInterim u := by
      intro c u hu1 hu2
      simp [onendE, hu1, hu2]
    have hid : ∀ u : CapState, jsTrim u.interim = "" →
        rescueInterim u = u := by
      intro u hu
      simp [rescueInterim, hu]
    rw [hsecond b s h1 h2, hsecond b' (rescueInterim s) hkeep.2 hkeep.1]
    by_cases hi : jsTrim s.interim = ""
    · simp [hid s hi]
    · have h2i : (rescueInterim s).interim = "" := by
        simp [rescueInterim, hi]
      rw [hid (rescueInterim s) (by rw [h2i]; rfl)]

/-- Witness for C4 at a concrete state with pending interim text. -/
theorem restart_transparency_c4_witness :
    (onendE true ⟨true, "hello world", "hello", "world", false, true⟩
      ).startAttempts = 1 :=
  (restart_transparency_c4 ⟨true, "hello world", "hello", "world", false, true⟩
    true rfl rfl).1

/-- C5 counterexample: a result event whose visited window holds a
single empty interim result leaves a non-empty pending interim ref
("world") while the displayed transcript shows the committed text
alone, so the display-format invariant fails as stated. -/
theorem display_invariant_c5_counterexample :
    (onresult ⟨0, [⟨"", false⟩]⟩
      (onresult ⟨0, [⟨"hello", true⟩, ⟨"world", false⟩]⟩ capInit)).interim =
      "world" ∧
    (onresult ⟨0, [⟨"", false⟩]⟩
      (onresult ⟨0, [⟨"hello", true⟩, ⟨"world", false⟩]⟩ capInit)).transcript =
      "hello" ∧
    ¬((onresult ⟨0, [⟨"", false⟩]⟩
        (onresult ⟨0, [⟨"hello", true⟩, ⟨"world", false⟩]⟩ capInit)).transcript
      =
      (onresult ⟨0, [⟨"", false⟩]⟩
        (onresult ⟨0, [⟨"hello", true⟩, ⟨"world", false⟩]⟩ capInit)).final
        ++ " " ++
      (onresult ⟨0, [⟨"", false⟩]⟩
        (onresult ⟨0, [⟨"hello", true⟩, ⟨"world", false⟩]⟩ capInit)).interim)
    := by
  decide

/-- C5 (amended): after every result event whose visited window carries
a finalized fragment or delivers non-empty interim text, the displayed
transcript equals the committed text followed — when the pending
interim ref is non-empty — by exactly one separating space and that
interim text, and equals the committed text alone when the ref is
empty. (An event delivering neither leaves a stale non-empty ref out of
the display — see the counterexample.) -/
theorem display_invariant_c5 :
    ∀ (s : CapState) (ev : ResultEvent),
      ((windowOf ev).any (fun x => x.isFinal) = true ∨
        interimConcat (windowOf ev) ≠ "") →
      (onresult ev s).transcript =
        (onresult ev s).final ++
          (if (onresult ev s).interim ≠ "" then
            " " ++ (onresult ev s).interim
          else "") := by
  intro s ev hyp
  rw [onresult_transcript, onresult_final, onresult_interim]
  simp only [foldRes_interimConcat, foldRes_ref]
  by_cases hic : interimConcat (windowOf ev) = ""
  · have hany : (windowOf ev).any (fun x => x.isFinal) = true := by
      rcases hyp with hyp | hyp
      · exact hyp
      · exact absurd hic hyp
    simp [hic, hany]
  · simp [hic]

/-- Witness for C5 at a concrete interim-carrying event. -/
theorem display_invariant_c5_witness :
    (onresult ⟨0, [⟨"hi", false⟩]⟩ capInit).transcript =
      (onresult ⟨0, [⟨"hi", false⟩]⟩ capInit).final ++
        (if (onresult ⟨0, [⟨"hi", false⟩]⟩ capInit).interim ≠ "" then
          " " ++ (onresult ⟨0, [⟨"hi", false⟩]⟩ capInit).interim
        else "") :=
  display_invariant_c5 capInit ⟨0, [⟨"hi", false⟩]⟩ (Or.inr (by decide))

/-- C6 counterexample: after committing "hello" and then calling
`resetTranscript`, the transcript is the empty string, but a subsequent
result event carrying only the interim text "hi" yields the transcript
" hi" — the display rule inserts the separating space before non-empty
interim text even when the committed buffer is empty — so the claimed
transcript "hi" is wrong by a leading space. -/
theorem reset_c6_counterexample :
    (resetTranscript (onresult ⟨0, [⟨"hello", true⟩]⟩ capInit)).transcript =
      "" ∧
    (onresult ⟨0, [⟨"hi", false⟩]⟩
      (resetTranscript (onresult ⟨0, [⟨"hello", true⟩]⟩ capInit))).transcript =
      " hi" ∧
    ¬((onresult ⟨0, [⟨"hi", false⟩]⟩
        (resetTranscript
          (onresult ⟨0, [⟨"hello", true⟩]⟩ capInit))).transcript = "hi") := by
  decide

/-- C6 (amended): `resetTranscript` clears the transcript and both text
buffers to exactly the empty string and leaves the engine activation
state (`isListening`, manual-stop intent, engine handle) unchanged; a
subsequent result event carrying only the interim text "hi" yields the
transcript exactly " hi" — the pending interim "hi" preceded by the one
unconditionally inserted separator, with no other residue from before
the reset. -/
theorem reset_clears_buffer_c6 :
    (∀ s : CapState,
      (resetTranscript s).transcript = "" ∧
      (resetTranscript s).final = "" ∧
      (resetTranscript s).interim = "" ∧
      (resetTranscript s).isListening = s.isListening ∧
      (resetTranscript s).manualStop = s.manualStop ∧
      (resetTranscript s).hasRec = s.hasRec) ∧
    (∀ (s : CapState) (ev : ResultEvent),
      windowOf ev = [⟨"hi", false⟩] →
      (onresult ev (resetTranscript s)).transcript = " hi" ∧
      (onresult ev (resetTranscript s)).final = "" ∧
      (onresult ev (resetTranscript s)).interim = "hi") := by
  constructor
  · intro s
    refine ⟨rfl, rfl, rfl, rfl, rfl, rfl⟩
  · intro s ev h
    refine ⟨?_, ?_, ?_⟩ <;>
      simp [onresult, resetTranscript, h, stepRes]

/-- Witness for C6's amended theorem at a concrete event. -/
theorem reset_clears_buffer_c6_witness :
    (onresult ⟨0, [⟨"hi", false⟩]⟩ (resetTranscript capInit)).transcript =
      " hi" ∧
    (onresult ⟨0, [⟨"hi", false⟩]⟩ (resetTranscript capInit)).final = "" ∧
    (onresult ⟨0, [⟨"hi", false⟩]⟩ (resetTranscript capInit)).interim =
      "hi" :=
  reset_clears_buffer_c6.2 capInit ⟨0, [⟨"hi", false⟩]⟩ rfl

/-- C7: capture error triage. Transient error codes (`no-speech`,
`network`, `aborted`) change no state and log nothing; permission
codes (`not-allowed`, `service-not-allowed`) set `isListening` false
and manual-stop intent true — leaving the buffers and transcript alone,
logging nothing, and guaranteeing that a later `onend` or retry timer
makes no restart attempt; every other code is logged and changes no
state. -/
theorem error_triage_c7 :
    ∀ (s : CapState) (c : String),
      ((c = "no-speech" ∨ c = "network" ∨ c = "aborted") →
        onerrorFn c s = (s, false)) ∧
      ((c = "not-allowed" ∨ c = "service-not-allowed") →
        (onerrorFn c s).1 =
          { s with isListening := false, manualStop := true } ∧
        (onerrorFn c s).2 = false ∧
        (onerrorFn c s).1.final = s.final ∧
        (onerrorFn c s).1.interim = s.interim ∧
        (onerrorFn c s).1.transcript = s.transcript ∧
        (∀ b : Bool, (onendE b (onerrorFn c s).1).startAttempts = 0) ∧
        retryStartAttempts (onerrorFn c s).1 = 0) ∧
      (¬(c = "no-speech" ∨ c = "network" ∨ c = "aborted" ∨
          c = "not-allowed" ∨ c = "service-not-allowed") →
        onerrorFn c s = (s, true)) := by
  intro s c
  refine ⟨?_, ?_, ?_⟩
  · intro h
    unfold onerrorFn
    rw [if_pos h]
  · intro h
    have hn : ¬(c = "no-speech" ∨ c = "network" ∨ c = "aborted") := by
      rcases h with h | h <;> subst h <;> decide
    have hup : (onerrorFn c s).1 =
        { s with isListening := false, manualStop := true } := by
      unfold onerrorFn
      rw [if_neg hn, if_pos h]
    refine ⟨hup, ?_, ?_, ?_, ?_, ?_, ?_⟩
    · unfold onerrorFn
      rw [if_neg hn, if_pos h]
    · rw [hup]
    · rw [hup]
    · rw [hup]
    · intro b
      rw [hup]
      simp [onendE]
    · rw [hup]
      simp [retryStartAttempts]
  · intro h
    have hn1 : ¬(c = "no-speech" ∨ c = "network" ∨ c = "aborted") := by
      intro hx
      exact h (by tauto)
    have hn2 : ¬(c = "not-allowed" ∨ c = "service-not-allowed") := by
      intro hx
      exact h (by tauto)
    unfold onerrorFn
    rw [if_neg hn1, if_neg hn2]

/-- Witness for C7 at the permission-denial code. -/
theorem error_triage_c7_witness :
    (onerrorFn "not-allowed" capInit).1 =
      { capInit with isListening := false, manualStop := true } :=
  ((error_triage_c7 capInit "not-allowed").2.1 (Or.inl rfl)).1

/-- C8: `speak(text)` postconditions. For every state and input text,
`speak` first cancels everything the synthesizer holds (all previously
pending, queued and speaking utterances are discarded or canceled, and
the log records those cancellations before any new dispatch exists),
forces `isSpeaking` false, and sanitizes the text by stripping the
markup characters `*`, `#`, `_` and backtick and trimming; when the
sanitized text is empty no utterance is constructed or scheduled,
otherwise exactly one dispatch is scheduled whose utterance text is the
sanitized text with the leading-silence buffer ". " prepended. -/
theorem speak_postconditions_c8 :
    ∀ (s : PBState) (text : String),
      (pbSpeak text s).queue = [] ∧
      (pbSpeak text s).speaking = none ∧
      (pbSpeak text s).isSpeaking = false ∧
      (pbSpeak text s).log =
        s.log ++ s.pending.map PBLog.discardedTimer ++ cancelCurrentLogs s ∧
      sanitizeTTS text =
        jsTrim ⟨text.data.filter
          (fun c => ¬(c = '*' ∨ c = '#' ∨ c = '_' ∨ c = Char.ofNat 96))⟩ ∧
      (sanitizeTTS text = "" → (pbSpeak text s).pending = []) ∧
      (sanitizeTTS text ≠ "" →
        (pbSpeak text s).pending = [". " ++ sanitizeTTS text]) := by
  intro s text
  refine ⟨rfl, rfl, rfl, rfl, rfl, ?_, ?_⟩
  · intro h
    simp [pbSpeak, h]
  · intro h
    simp [pbSpeak, h]

/-- Witness for C8 at a markup-bearing text. -/
theorem speak_postconditions_c8_witness :
    (pbSpeak "*hi*" pbInit).pending = [". " ++ sanitizeTTS "*hi*"] :=
  (speak_postconditions_c8 pbInit "*hi*").2.2.2.2.2.2 (by decide)

/-- Preservation of the playback invariant — at most one utterance
anywhere in the pipeline and `isSpeaking` tracking the speaking slot —
under every event. -/
theorem pbStep_inv (e : PBEv) (s : PBState)
    (h1 : pipelineCount s ≤ 1) (h2 : s.isSpeaking = s.speaking.isSome) :
    pipelineCount (pbStep e s) ≤ 1 ∧
    (pbStep e s).isSpeaking = (pbStep e s).speaking.isSome := by
  obtain ⟨p, q, sp, isp, lg⟩ := s
  cases e with
  | speakE t =>
      refine ⟨?_, rfl⟩
      simp only [pbStep, pbSpeak, pipelineCount]
      split <;> simp
  | cancelE =>
      exact ⟨by simp [pbStep, pbCancelSpeech, pipelineCount], rfl⟩
  | fire =>
      cases p with
      | nil => exact ⟨h1, h2⟩
      | cons u rest =>
          refine ⟨?_, h2⟩
          simp only [pbStep, pbTimerFire, pipelineCount, List.length_cons,
            List.length_append, List.length_nil] at h1 ⊢
          omega
  | engStart =>
      cases sp with
      | some v => cases q <;> exact ⟨h1, h2⟩
      | none =>
          cases q with
          | nil => exact ⟨h1, h2⟩
          | cons u rest =>
              constructor
              · simp only [pbStep, pbEngineStart, pipelineCount,
                  List.length_cons, Option.isSome_some, Option.isSome_none,
                  Bool.false_eq_true, eq_self_iff_true, if_true,
                  if_false] at h1 ⊢
                omega
              · simp [pbStep, pbEngineStart]
  | engEnd =>
      cases sp with
      | none => exact ⟨h1, h2⟩
      | some v =>
          constructor
          · simp only [pbStep, pbEngineEnd, pipelineCount,
              Option.isSome_some, Option.isSome_none, Bool.false_eq_true,
              eq_self_iff_true, if_true, if_false] at h1 ⊢
            omega
          · simp [pbStep, pbEngineEnd]

/-- The playback invariant holds along every run. -/
theorem pbRun_inv (evs : List PBEv) :
    ∀ s : PBState,
      pipelineCount s ≤ 1 → s.isSpeaking = s.speaking.isSome →
      pipelineCount (pbRun evs s) ≤ 1 ∧
      (pbRun evs s).isSpeaking = (pbRun evs s).speaking.isSome := by
  induction evs with
  | nil => intro s h1 h2; exact ⟨h1, h2⟩
  | cons e rest ih =>
      intro s h1 h2
      have hstep := pbStep_inv e s h1 h2
      exact ih (pbStep e s) hstep.1 hstep.2

/-- After `speak "A"` and any sequence of timer fires and engine
starts (no further speaks, cancels or ends — "A" has not finished),
the controller is in exactly one of three configurations: the
utterance ". A" is still pending dispatch, handed to the synthesizer
queue, or currently speaking. -/
theorem pb_afterA (pre : List PBEv) :
    (∀ e ∈ pre, e = PBEv.fire ∨ e = PBEv.engStart) →
    ∀ s : PBState,
      (s = ⟨[". A"], [], none, false, []⟩ ∨
        s = ⟨[], [". A"], none, false, []⟩ ∨
        s = ⟨[], [], some ". A", true, [PBLog.started ". A"]⟩) →
      (pbRun pre s = ⟨[". A"], [], none, false, []⟩ ∨
        pbRun pre s = ⟨[], [". A"], none, false, []⟩ ∨
        pbRun pre s = ⟨[], [], some ". A", true, [PBLog.started ". A"]⟩) := by
  induction pre with
  | nil =>
      intro _ s hs
      exact hs
  | cons e rest ih =>
      intro h s hs
      have he := h e (List.mem_cons_self e rest)
      have hrest : ∀ x ∈ rest, x = PBEv.fire ∨ x = PBEv.engStart :=
        fun x hx => h x (List.mem_cons_of_mem e hx)
      have hstep : pbRun (e :: rest) s = pbRun rest (pbStep e s) := rfl
      rw [hstep]
      apply ih hrest
      rcases he with he | he <;> rcases hs with hs | hs | hs <;>
        subst he <;> subst hs <;> decide

/-- C9: single-utterance invariant. Along every event sequence the
Playback Controller holds at most one utterance in the whole pipeline
(so at most one pending dispatch timer and at most one current
utterance), and `isSpeaking` is true exactly when some single
utterance occupies the speaking slot — it is never true for two
utterances. Moreover, for every pair of calls `speak "A"` then
`speak "B"` issued before "A" finishes (any run of timer fires and
engine starts in between), "A" is discarded or canceled exactly once,
"A" reaches the speaking state at most once, only "B" ultimately
reaches the speaking state, and "B" is never canceled. -/
theorem single_utterance_c9 :
    (∀ evs : List PBEv,
      pipelineCount (pbRun evs pbInit) ≤ 1 ∧
      (pbRun evs pbInit).isSpeaking = (pbRun evs pbInit).speaking.isSome) ∧
    (∀ pre : List PBEv,
      (∀ e ∈ pre, e = PBEv.fire ∨ e = PBEv.engStart) →
      (pbRun (PBEv.speakE "A" :: pre ++
          [PBEv.speakE "B", PBEv.fire, PBEv.engStart]) pbInit).log.count
            (PBLog.discardedTimer ". A") +
        (pbRun (PBEv.speakE "A" :: pre ++
          [PBEv.speakE "B", PBEv.fire, PBEv.engStart]) pbInit).log.count
            (PBLog.canceledUt ". A") = 1 ∧
      (pbRun (PBEv.speakE "A" :: pre ++
          [PBEv.speakE "B", PBEv.fire, PBEv.engStart]) pbInit).log.count
            (PBLog.started ". A") ≤ 1 ∧
      (pbRun (PBEv.speakE "A" :: pre ++
          [PBEv.speakE "B", PBEv.fire, PBEv.engStart]) pbInit).log.count
            (PBLog.started ". B") = 1 ∧
      (pbRun (PBEv.speakE "A" :: pre ++
          [PBEv.speakE "B", PBEv.fire, PBEv.engStart]) pbInit).speaking =
        some ". B" ∧
      (pbRun (PBEv.speakE "A" :: pre ++
          [PBEv.speakE "B", PBEv.fire, PBEv.engStart]) pbInit).isSpeaking =
        true ∧
      (pbRun (PBEv.speakE "A" :: pre ++
          [PBEv.speakE "B", PBEv.fire, PBEv.engStart]) pbInit).log.count
            (PBLog.canceledUt ". B") +
        (pbRun (PBEv.speakE "A" :: pre ++
          [PBEv.speakE "B", PBEv.fire, PBEv.engStart]) pbInit).log.count
            (PBLog.discardedTimer ". B") = 0) := by
  constructor
  · intro evs
    exact pbRun_inv evs pbInit (by decide) rfl
  · intro pre h
    have hsplit : pbRun (PBEv.speakE "A" :: pre ++
        [PBEv.speakE "B", PBEv.fire, PBEv.engStart]) pbInit =
        pbRun [PBEv.speakE "B", PBEv.fire, PBEv.engStart]
          (pbRun pre (pbStep (PBEv.speakE "A") pbInit)) := by
      simp [pbRun, List.foldl_cons, List.foldl_append]
    have hA : pbStep (PBEv.speakE "A") pbInit =
        ⟨[". A"], [], none, false, []⟩ := by decide
    rw [hsplit, hA]
    rcases pb_afterA pre h ⟨[". A"], [], none, false, []⟩ (Or.inl rfl) with
      hm | hm | hm <;> rw [hm] <;> refine ⟨?_, ?_, ?_, ?_, ?_, ?_⟩ <;> decide

/-- Witness for C9's scenario at the immediate interleaving. -/
theorem single_utterance_c9_witness :
    (pbRun [PBEv.speakE "A", PBEv.speakE "B", PBEv.fire, PBEv.engStart]
      pbInit).speaking = some ". B" :=
  (single_utterance_c9.2 [] (by simp)).2.2.2.1
